import Mathlib

/-!
Shallow embedding of the `valhalla-limit-order-book` matching engine
(`src/order_book/limit_order_book.rs` and `src/order_book/models.rs`).

Modelling conventions:
* `u64` and `u128` fields become `Nat`.  The matching loop only compares and
  subtracts under guards that rule out underflow, so plain `Nat` subtraction
  coincides with the Rust semantics there.  The one place the code adds
  quantities (`best_order`) is modelled with an explicit `% 2 ^ 64` wrap,
  matching `u64` wrapping arithmetic.
* The clock (`util::current_unix_timestamp()`, an injected dependency per the
  design) is modelled as an explicit `now : Nat` argument threaded to the one
  call site that reads it (`Order::new` on the resting remainder).
* The per-side `RwLock`s serialize each phase of `place_order`; a single call
  with no concurrent interference is the sequential function modelled here.
* Rust's `sort_by` is a stable sort; it is modelled by a stable insertion
  sort on the comparator returned `Ordering`.
-/

inductive OrderSide where
  | Buy : OrderSide
  | Sell : OrderSide
deriving DecidableEq, Repr

/-- Mirrors `Order` in `models.rs`. -/
structure Order where
  id : Nat
  side : OrderSide
  price : Nat
  quantity : Nat
  timestamp : Nat
deriving DecidableEq, Repr

/-- Mirrors `Order::new` in `models.rs`: the timestamp is taken from the
clock (here the explicit `now` argument), never from a caller-held value. -/
def Order.new (id : Nat) (side : OrderSide) (price : Nat) (quantity : Nat)
    (now : Nat) : Order :=
  ⟨id, side, price, quantity, now⟩

/-- Mirrors `Trade` in `models.rs`. -/
structure Trade where
  maker_id : Nat
  taker_id : Nat
  price : Nat
  quantity : Nat
deriving DecidableEq, Repr

/-- Mirrors `Trade::new` in `models.rs`. -/
def Trade.new (maker_id : Nat) (taker_id : Nat) (price : Nat)
    (quantity : Nat) : Trade :=
  ⟨maker_id, taker_id, price, quantity⟩

/-- Mirrors `BestOrder` in `models.rs`. -/
structure BestOrder where
  price : Nat
  total_quantity : Nat
deriving DecidableEq, Repr

/-- The two side-sequences guarded by the two `RwLock`s of
`LimitOrderBook` (`limit_order_book.rs`, lines 10-13). -/
structure LimitOrderBook where
  buy_orders : List Order
  sell_orders : List Order
deriving DecidableEq, Repr

/-- `LimitOrderBook::new`: both sides empty. -/
def LimitOrderBook.newBook : LimitOrderBook :=
  ⟨[], []⟩

/-- The price-compatibility test of `place_order_internal`
(lines 33-36): a Buy taker matches resting prices `<=` its own, a Sell
taker matches resting prices `>=` its own. -/
def price_ok (side : OrderSide) (oprice : Nat) (cprice : Nat) : Bool :=
  match side with
  | OrderSide.Buy => decide (cprice ≤ oprice)
  | OrderSide.Sell => decide (oprice ≤ cprice)

/-- The `for curr_order in lock.iter_mut()` loop of `place_order_internal`
(lines 32-65).  Returns the emitted trades, the remaining taker quantity
and the opposite-side sequence with its in-place quantity mutations
(`curr_order.quantity -= remaining` / `= 0`); `break` leaves the tail
untouched. -/
def matchLoop (side : OrderSide) (oid : Nat) (oprice : Nat) :
    Nat → List Order → List Trade × Nat × List Order
  | rem, [] => ([], rem, [])
  | rem, curr :: rest =>
    if price_ok side oprice curr.price ∧ 0 < rem then
      if rem < curr.quantity then
        ([Trade.new curr.id oid curr.price rem], 0,
          { curr with quantity := curr.quantity - rem } :: rest)
      else
        (Trade.new curr.id oid curr.price curr.quantity ::
            (matchLoop side oid oprice (rem - curr.quantity) rest).1,
          (matchLoop side oid oprice (rem - curr.quantity) rest).2.1,
          { curr with quantity := 0 } ::
            (matchLoop side oid oprice (rem - curr.quantity) rest).2.2)
    else
      ([], rem, curr :: rest)

/-- The buy-branch comparator of `add_order` (lines 126-134): descending
price, ties broken by ascending timestamp. -/
def buy_cmp (a : Order) (b : Order) : Ordering :=
  if b.price = a.price then compare a.timestamp b.timestamp
  else compare b.price a.price

/-- The sell-branch comparator of `add_order` (lines 138-146): ascending
price, ties broken by ascending timestamp. -/
def sell_cmp (a : Order) (b : Order) : Ordering :=
  if b.price = a.price then compare a.timestamp b.timestamp
  else compare a.price b.price

/-- Stable insertion step: `o` goes in front of the first element not
strictly below it, so existing ties keep their relative order, as Rust's
stable `sort_by` guarantees. -/
def insertOrd (c : Order → Order → Ordering) (o : Order) :
    List Order → List Order
  | [] => [o]
  | x :: xs =>
    if c x o = Ordering.lt then x :: insertOrd c o xs else o :: x :: xs

/-- Stable sort by a comparator; models `Vec::sort_by`. -/
def sortByOrd (c : Order → Order → Ordering) : List Order → List Order
  | [] => []
  | x :: xs => insertOrd c x (sortByOrd c xs)

/-- Mirrors `add_order` (lines 122-149): push the order, then sort the
sequence with the comparator selected by the PUSHED order's `side` tag. -/
def add_order (lock : List Order) (o : Order) : List Order :=
  match o.side with
  | OrderSide.Buy => sortByOrd buy_cmp (lock ++ [o])
  | OrderSide.Sell => sortByOrd sell_cmp (lock ++ [o])

/-- Mirrors `place_order_internal` (lines 24-94): match against the
opposite side, drop exhausted resting orders, and, if quantity remains,
rest it via `Order::new(order.id, OrderSide::Buy, order.price, remaining)`
(line 83) on the submission's own side. -/
def place_order_internal (b : LimitOrderBook) (o : Order) (now : Nat) :
    List Trade × LimitOrderBook :=
  let opp := match o.side with
    | OrderSide.Buy => b.sell_orders
    | OrderSide.Sell => b.buy_orders
  let res := matchLoop o.side o.id o.price o.quantity opp
  let opp2 := res.2.2.filter (fun x => decide (0 < x.quantity))
  let b1 := match o.side with
    | OrderSide.Buy => LimitOrderBook.mk b.buy_orders opp2
    | OrderSide.Sell => LimitOrderBook.mk opp2 b.sell_orders
  if 0 < res.2.1 then
    let newOrd := Order.new o.id OrderSide.Buy o.price res.2.1 now
    let b2 := match o.side with
      | OrderSide.Buy =>
          LimitOrderBook.mk (add_order b1.buy_orders newOrd) b1.sell_orders
      | OrderSide.Sell =>
          LimitOrderBook.mk b1.buy_orders (add_order b1.sell_orders newOrd)
    (res.1, b2)
  else
    (res.1, b1)

/-- The `OrderBook::place_order` trait method, which delegates to
`place_order_internal` (lines 154-156). -/
def place_order (b : LimitOrderBook) (o : Order) (now : Nat) :
    List Trade × LimitOrderBook :=
  place_order_internal b o now

/-- Mirrors `best_order` (lines 98-118): seed the aggregate from the first
element, then add the quantity of every order at the same price whose id
differs from the FIRST element's id.  The `u64` addition wraps. -/
def best_order (b : LimitOrderBook) (side : OrderSide) : Option BestOrder :=
  let lock := match side with
    | OrderSide.Buy => b.buy_orders
    | OrderSide.Sell => b.sell_orders
  match lock with
  | [] => none
  | first :: _ =>
    some (lock.foldl
      (fun bo o =>
        if o.price = bo.price ∧ o.id ≠ first.id then
          BestOrder.mk bo.price ((bo.total_quantity + o.quantity) % 2 ^ 64)
        else bo)
      (BestOrder.mk first.price first.quantity))

/-- `OrderBook::best_buy` (lines 158-160). -/
def best_buy (b : LimitOrderBook) : Option BestOrder :=
  best_order b OrderSide.Buy

/-- `OrderBook::best_sell` (lines 162-164). -/
def best_sell (b : LimitOrderBook) : Option BestOrder :=
  best_order b OrderSide.Sell

/-- Sequential driver: place the listed orders (each paired with the clock
value supplied to its call) in order, starting from a given book. -/
def placeMany (b : LimitOrderBook) : List (Order × Nat) → LimitOrderBook
  | [] => b
  | p :: rest => placeMany (place_order b p.1 p.2).2 rest

/-- A book state reachable from the empty book through a sequence of
(non-concurrent) `place_order` calls. -/
def Reachable (b : LimitOrderBook) : Prop :=
  ∃ l : List (Order × Nat), b = placeMany LimitOrderBook.newBook l

/-- The side-sequence an order of side `s` rests on (its own side). -/
def ownOrders (b : LimitOrderBook) : OrderSide → List Order
  | OrderSide.Buy => b.buy_orders
  | OrderSide.Sell => b.sell_orders

/-- The side-sequence an order of side `s` matches against. -/
def oppositeOrders (b : LimitOrderBook) : OrderSide → List Order
  | OrderSide.Buy => b.sell_orders
  | OrderSide.Sell => b.buy_orders

/-- Projection of lines 76-87: the order the call rests on the book, if
any.  The remainder is built by `Order::new` with the hard-coded
`OrderSide::Buy` tag and a fresh clock timestamp. -/
def restedRemainder (b : LimitOrderBook) (o : Order) (now : Nat) :
    Option Order :=
  if 0 < (matchLoop o.side o.id o.price o.quantity (oppositeOrders b o.side)).2.1 then
    some (Order.new o.id OrderSide.Buy o.price
      (matchLoop o.side o.id o.price o.quantity (oppositeOrders b o.side)).2.1 now)
  else none

/-- The sell-side priority order as §4.2 of the spec states it: ascending
price, ties broken by ascending timestamp.  (Spec-side definition, used
only to state violations of the claimed invariant.) -/
def specSellLE (a : Order) (b : Order) : Prop :=
  a.price < b.price ∨ (a.price = b.price ∧ a.timestamp ≤ b.timestamp)

instance : DecidableRel specSellLE := by
  intro a b
  unfold specSellLE
  infer_instance

/-! ## Basic structural lemmas -/

/-- `insertOrd` permutes the element onto the front of the list. -/
theorem insertOrd_perm (c : Order → Order → Ordering) (o : Order)
    (l : List Order) : (insertOrd c o l).Perm (o :: l) := by
  induction l with
  | nil => exact List.Perm.refl _
  | cons x xs ih =>
    unfold insertOrd
    split
    · exact (ih.cons x).trans (List.Perm.swap o x xs)
    · exact List.Perm.refl _

/-- `sortByOrd` is a permutation of its input. -/
theorem sortByOrd_perm (c : Order → Order → Ordering) (l : List Order) :
    (sortByOrd c l).Perm l := by
  induction l with
  | nil => exact List.Perm.refl _
  | cons x xs ih => exact (insertOrd_perm c x (sortByOrd c xs)).trans (ih.cons x)

/-- `add_order` permutes the list with the new order appended, whichever
comparator branch is taken. -/
theorem add_order_perm (lock : List Order) (o : Order) :
    (add_order lock o).Perm (lock ++ [o]) := by
  obtain ⟨i, s, p, q, t⟩ := o
  cases s
  · exact sortByOrd_perm buy_cmp _
  · exact sortByOrd_perm sell_cmp _

/-- Pointwise relation between a resting order before and after the
matching loop: every identifying field is untouched and the quantity can
only shrink. -/
def shrinkOf (a : Order) (b : Order) : Prop :=
  b.id = a.id ∧ b.side = a.side ∧ b.price = a.price ∧
    b.timestamp = a.timestamp ∧ b.quantity ≤ a.quantity

theorem shrinkOf_refl (a : Order) : shrinkOf a a :=
  ⟨rfl, rfl, rfl, rfl, Nat.le_refl _⟩

theorem forall2_shrinkOf_refl (l : List Order) :
    List.Forall₂ shrinkOf l l := by
  induction l with
  | nil => exact List.Forall₂.nil
  | cons x xs ih => exact List.Forall₂.cons (shrinkOf_refl x) ih

/-! ## Matching-loop lemmas -/

/-- The matching loop conserves quantity: emitted trade quantities plus
the leftover taker quantity add up to the submitted quantity. -/
theorem matchLoop_sum (side : OrderSide) (oid : Nat) (oprice : Nat)
    (q : Nat) (l : List Order) :
    ((matchLoop side oid oprice q l).1.map Trade.quantity).sum
      + (matchLoop side oid oprice q l).2.1 = q := by
  induction l generalizing q with
  | nil => simp [matchLoop]
  | cons curr rest ih =>
    unfold matchLoop
    split
    · split
      · simp [Trade.new]
      · rename_i hc hq
        have h2 := ih (q - curr.quantity)
        simp only [List.map_cons, List.sum_cons, Trade.new]
        omega
    · simp

/-- The matching loop only shrinks quantities of resting orders and
touches no other field, preserving list positions. -/
theorem matchLoop_shrink (side : OrderSide) (oid : Nat) (oprice : Nat)
    (q : Nat) (l : List Order) :
    List.Forall₂ shrinkOf l (matchLoop side oid oprice q l).2.2 := by
  induction l generalizing q with
  | nil => exact List.Forall₂.nil
  | cons curr rest ih =>
    unfold matchLoop
    split
    · split
      · exact List.Forall₂.cons ⟨rfl, rfl, rfl, rfl, Nat.sub_le _ _⟩
          (forall2_shrinkOf_refl rest)
      · exact List.Forall₂.cons ⟨rfl, rfl, rfl, rfl, Nat.zero_le _⟩
          (ih (q - curr.quantity))
    · exact List.Forall₂.cons (shrinkOf_refl curr) (forall2_shrinkOf_refl rest)

/-- A zero-quantity taker matches nothing and leaves the scanned side as
it was. -/
theorem matchLoop_zero (side : OrderSide) (oid : Nat) (oprice : Nat)
    (l : List Order) : matchLoop side oid oprice 0 l = ([], 0, l) := by
  cases l with
  | nil => rfl
  | cons curr rest => simp [matchLoop]

/-! ## Shape of a `place_order` call -/

/-- The trades returned by `place_order` are exactly those emitted by the
matching loop over the opposite side. -/
theorem place_order_trades (b : LimitOrderBook) (o : Order) (now : Nat) :
    (place_order b o now).1
      = (matchLoop o.side o.id o.price o.quantity (oppositeOrders b o.side)).1 := by
  obtain ⟨i, s, p, q, t⟩ := o
  cases s <;>
    simp only [place_order, place_order_internal, oppositeOrders] <;>
    split <;> rfl

/-- After `place_order`, the opposite side is the loop's output with
zero-quantity orders filtered away. -/
theorem place_order_opposite (b : LimitOrderBook) (o : Order) (now : Nat) :
    oppositeOrders (place_order b o now).2 o.side
      = ((matchLoop o.side o.id o.price o.quantity (oppositeOrders b o.side)).2.2).filter
          (fun x => decide (0 < x.quantity)) := by
  obtain ⟨i, s, p, q, t⟩ := o
  cases s <;>
    simp only [place_order, place_order_internal, oppositeOrders] <;>
    split <;> rfl

/-- After `place_order`, the own side is unchanged unless a remainder
rests, in which case it is the old own side with the remainder added via
`add_order`. -/
theorem place_order_own (b : LimitOrderBook) (o : Order) (now : Nat) :
    ownOrders (place_order b o now).2 o.side
      = Option.elim (restedRemainder b o now) (ownOrders b o.side)
          (fun r => add_order (ownOrders b o.side) r) := by
  obtain ⟨i, s, p, q, t⟩ := o
  cases s
  · by_cases h : 0 < (matchLoop OrderSide.Buy i p q b.sell_orders).2.1 <;>
      simp [place_order, place_order_internal, restedRemainder, ownOrders,
        oppositeOrders, h]
  · by_cases h : 0 < (matchLoop OrderSide.Sell i p q b.buy_orders).2.1 <;>
      simp [place_order, place_order_internal, restedRemainder, ownOrders,
        oppositeOrders, h]

/-- The own side after a call is, as a multiset, the old own side plus
the rested remainder (if any). -/
theorem place_order_own_perm (b : LimitOrderBook) (o : Order) (now : Nat) :
    (ownOrders (place_order b o now).2 o.side).Perm
      (ownOrders b o.side ++ (restedRemainder b o now).toList) := by
  rw [place_order_own]
  cases hr : restedRemainder b o now with
  | none => simp
  | some r =>
    simp only [Option.elim, Option.toList_some]
    exact add_order_perm (ownOrders b o.side) r

/-- A rested remainder always carries positive quantity. -/
theorem restedRemainder_pos (b : LimitOrderBook) (o : Order) (now : Nat)
    (r : Order) (h : restedRemainder b o now = some r) : 0 < r.quantity := by
  unfold restedRemainder at h
  split at h
  · rename_i hlt
    injection h with h2
    rw [← h2]
    exact hlt
  · cases h

/-- The rested remainder's timestamp is the clock value of the call. -/
theorem restedRemainder_timestamp (b : LimitOrderBook) (o : Order)
    (now : Nat) (r : Order) (h : restedRemainder b o now = some r) :
    r.timestamp = now := by
  unfold restedRemainder at h
  split at h
  · injection h with h2
    rw [← h2]
    rfl
  · cases h

/-- The quantity carried by the rested remainder (0 when nothing rests)
is the loop's leftover quantity. -/
theorem restedRemainder_quantity (b : LimitOrderBook) (o : Order)
    (now : Nat) :
    ((restedRemainder b o now).map Order.quantity).getD 0
      = (matchLoop o.side o.id o.price o.quantity (oppositeOrders b o.side)).2.1 := by
  unfold restedRemainder
  split
  · rfl
  · rename_i h
    exact (Nat.eq_zero_of_not_pos h).symm

/-! ## The positivity invariant on reachable books -/

/-- Every resting order on either side has positive quantity. -/
def QtyPos (b : LimitOrderBook) : Prop :=
  (∀ x ∈ b.buy_orders, 0 < x.quantity) ∧ ∀ x ∈ b.sell_orders, 0 < x.quantity

theorem qtyPos_iff (b : LimitOrderBook) (s : OrderSide) :
    QtyPos b ↔ ((∀ x ∈ ownOrders b s, 0 < x.quantity)
      ∧ ∀ x ∈ oppositeOrders b s, 0 < x.quantity) := by
  cases s
  · exact Iff.rfl
  · exact and_comm

/-- `place_order` preserves positivity of all resting quantities. -/
theorem qtyPos_place (b : LimitOrderBook) (o : Order) (now : Nat)
    (hb : QtyPos b) : QtyPos (place_order b o now).2 := by
  rcases (qtyPos_iff b o.side).mp hb with ⟨hbo, _⟩
  refine (qtyPos_iff _ o.side).mpr ⟨?_, ?_⟩
  · intro x hx
    rcases List.mem_append.mp ((place_order_own_perm b o now).mem_iff.mp hx)
      with h | h
    · exact hbo x h
    · cases hrm : restedRemainder b o now with
      | none => rw [hrm] at h; cases h
      | some r =>
        rw [hrm] at h
        have hx1 : x = r := by simpa using h
        exact hx1 ▸ restedRemainder_pos b o now r hrm
  · intro x hx
    rw [place_order_opposite] at hx
    exact of_decide_eq_true (List.mem_filter.mp hx).2

theorem qtyPos_placeMany (l : List (Order × Nat)) (b : LimitOrderBook)
    (hb : QtyPos b) : QtyPos (placeMany b l) := by
  induction l generalizing b with
  | nil => exact hb
  | cons p rest ih => exact ih _ (qtyPos_place b p.1 p.2 hb)

/-- Every reachable book satisfies the positivity invariant. -/
theorem reachable_qtyPos (b : LimitOrderBook) (hb : Reachable b) :
    QtyPos b := by
  obtain ⟨l, rfl⟩ := hb
  refine qtyPos_placeMany l _ ⟨?_, ?_⟩ <;> intro x hx <;> cases hx

/-! ## Claim theorems -/

/-- C1: the claimed invariant — every side sorted by its §4.2 comparator
after any sequence of `place_order` calls — fails on the code.  Placing
Sell(id=1, price=100, qty=5) and then Sell(id=2, price=90, qty=5) from the
empty book leaves the sell side as [price 100, price 90]: descending,
because line 83 tags both remainders `OrderSide::Buy` and `add_order`
therefore applies the buy comparator to the sell sequence.  The sell side
is not sorted by the spec's ascending-price sell priority. -/
theorem C1_sell_side_sort_invariant_fails :
    (placeMany LimitOrderBook.newBook
        [(⟨1, OrderSide.Sell, 100, 5, 0⟩, 1),
         (⟨2, OrderSide.Sell, 90, 5, 0⟩, 2)]).sell_orders
      = [⟨1, OrderSide.Buy, 100, 5, 1⟩, ⟨2, OrderSide.Buy, 90, 5, 2⟩]
    ∧ ¬ List.Pairwise specSellLE
        (placeMany LimitOrderBook.newBook
          [(⟨1, OrderSide.Sell, 100, 5, 0⟩, 1),
           (⟨2, OrderSide.Sell, 90, 5, 0⟩, 2)]).sell_orders := by
  constructor
  · rfl
  · decide

/-- C2: the claim that the resting remainder carries the submission's own
side fails on the code.  A Sell submission resting on the empty book is
stored on the (correct) sell sequence but with `side = Buy`: line 83
passes the constant `OrderSide::Buy` to `Order::new`, and `add_order`
consequently re-sorts the sell sequence with the buy comparator. -/
theorem C2_remainder_side_fixed_to_buy :
    (place_order LimitOrderBook.newBook ⟨1, OrderSide.Sell, 100, 5, 0⟩ 1).2.sell_orders
      = [⟨1, OrderSide.Buy, 100, 5, 1⟩]
    ∧ restedRemainder LimitOrderBook.newBook ⟨1, OrderSide.Sell, 100, 5, 0⟩ 1
        = some ⟨1, OrderSide.Buy, 100, 5, 1⟩
    ∧ OrderSide.Buy ≠ OrderSide.Sell := by
  refine ⟨rfl, rfl, ?_⟩
  decide

/-- C3: the claim that a buy taker's trades come back in ascending maker
price fails on the code.  With resting Sell(1,100,3) and Sell(2,101,4)
(kept descending by the mis-sorted sell side), Buy(3,101,6) trades at
maker price 101 first and 100 second — descending, not best price
first. -/
theorem C3_buy_taker_trades_descending :
    (place_order (placeMany LimitOrderBook.newBook
        [(⟨1, OrderSide.Sell, 100, 3, 0⟩, 1),
         (⟨2, OrderSide.Sell, 101, 4, 0⟩, 2)])
      ⟨3, OrderSide.Buy, 101, 6, 0⟩ 3).1
      = [Trade.mk 2 3 101 4, Trade.mk 1 3 100 2]
    ∧ ¬ (101 : Nat) ≤ 100 := by
  refine ⟨rfl, ?_⟩
  decide

/-- C4: the claim that `best_sell` aggregates at the minimum resting sell
price fails on the code.  With resting sells at prices 100 and 90 (stored
descending, see C1's scenario), `best_sell` reports price 100 — the first
element of the mis-sorted sequence — even though a sell rests at the
strictly better price 90. -/
theorem C4_best_sell_not_min_price :
    best_sell (placeMany LimitOrderBook.newBook
        [(⟨1, OrderSide.Sell, 100, 5, 0⟩, 1),
         (⟨2, OrderSide.Sell, 90, 5, 0⟩, 2)])
      = some ⟨100, 5⟩
    ∧ (placeMany LimitOrderBook.newBook
        [(⟨1, OrderSide.Sell, 100, 5, 0⟩, 1),
         (⟨2, OrderSide.Sell, 90, 5, 0⟩, 2)]).sell_orders.map Order.price
        = [100, 90]
    ∧ (90 : Nat) < 100 := by
  refine ⟨rfl, rfl, ?_⟩
  decide

/-- C5: Scenario C holds on the code.  From the empty book, after
Sell(id=1, price=100, qty=3), Sell(id=2, price=101, qty=4), submitting
Buy(id=3, price=101, qty=6) yields exactly two trades at two distinct
price levels totalling 6; afterwards `best_sell` is (price 100,
quantity 1) and `best_buy` is absent. -/
theorem C5_scenario_c :
    (place_order (placeMany LimitOrderBook.newBook
        [(⟨1, OrderSide.Sell, 100, 3, 0⟩, 1),
         (⟨2, OrderSide.Sell, 101, 4, 0⟩, 2)])
      ⟨3, OrderSide.Buy, 101, 6, 0⟩ 3).1.length = 2
    ∧ (((place_order (placeMany LimitOrderBook.newBook
        [(⟨1, OrderSide.Sell, 100, 3, 0⟩, 1),
         (⟨2, OrderSide.Sell, 101, 4, 0⟩, 2)])
      ⟨3, OrderSide.Buy, 101, 6, 0⟩ 3).1.map Trade.quantity).sum = 6)
    ∧ ((place_order (placeMany LimitOrderBook.newBook
        [(⟨1, OrderSide.Sell, 100, 3, 0⟩, 1),
         (⟨2, OrderSide.Sell, 101, 4, 0⟩, 2)])
      ⟨3, OrderSide.Buy, 101, 6, 0⟩ 3).1.map Trade.price).Nodup
    ∧ best_sell (place_order (placeMany LimitOrderBook.newBook
        [(⟨1, OrderSide.Sell, 100, 3, 0⟩, 1),
         (⟨2, OrderSide.Sell, 101, 4, 0⟩, 2)])
      ⟨3, OrderSide.Buy, 101, 6, 0⟩ 3).2 = some ⟨100, 1⟩
    ∧ best_buy (place_order (placeMany LimitOrderBook.newBook
        [(⟨1, OrderSide.Sell, 100, 3, 0⟩, 1),
         (⟨2, OrderSide.Sell, 101, 4, 0⟩, 2)])
      ⟨3, OrderSide.Buy, 101, 6, 0⟩ 3).2 = none := by
  refine ⟨rfl, rfl, ?_, rfl, rfl⟩
  decide

/-- C6: conservation.  For every book, submission and clock value, the
trade quantities returned by `place_order` plus the quantity of the newly
rested remainder (0 when none rests) add up to the submitted quantity;
moreover the own side after the call is exactly the old own side plus
that remainder. -/
theorem C6_conservation (b : LimitOrderBook) (o : Order) (now : Nat) :
    ((place_order b o now).1.map Trade.quantity).sum
        + ((restedRemainder b o now).map Order.quantity).getD 0 = o.quantity
      ∧ (ownOrders (place_order b o now).2 o.side).Perm
          (ownOrders b o.side ++ (restedRemainder b o now).toList) := by
  constructor
  · rw [place_order_trades, restedRemainder_quantity]
    exact matchLoop_sum o.side o.id o.price o.quantity (oppositeOrders b o.side)
  · exact place_order_own_perm b o now

/-- C7: the claim that the scan's early termination misses no compatible
resting order fails on the code.  With sells resting at prices 200 and
100 (descending, reachable because the sell side is kept with the buy
comparator), Buy(id=3, price=150, qty=5) stops at the incompatible first
element (200 > 150) and returns no trades, although the order after it
(price 100) is price-compatible. -/
theorem C7_scan_stops_before_compatible_order :
    (placeMany LimitOrderBook.newBook
        [(⟨1, OrderSide.Sell, 100, 5, 0⟩, 1),
         (⟨2, OrderSide.Sell, 200, 5, 0⟩, 2)]).sell_orders.map Order.price
      = [200, 100]
    ∧ (place_order (placeMany LimitOrderBook.newBook
        [(⟨1, OrderSide.Sell, 100, 5, 0⟩, 1),
         (⟨2, OrderSide.Sell, 200, 5, 0⟩, 2)])
        ⟨3, OrderSide.Buy, 150, 5, 0⟩ 3).1 = []
    ∧ price_ok OrderSide.Buy 150 200 = false
    ∧ price_ok OrderSide.Buy 150 100 = true := by
  refine ⟨rfl, rfl, ?_, ?_⟩ <;> decide

/-- C8: a zero-quantity submission is a no-op on every reachable book:
no trades are returned and the book is returned unchanged. -/
theorem C8_zero_quantity_noop (b : LimitOrderBook) (o : Order) (now : Nat)
    (hb : Reachable b) (h0 : o.quantity = 0) :
    place_order b o now = ([], b) := by
  have hq := reachable_qtyPos b hb
  obtain ⟨i, s, p, q, t⟩ := o
  have h0q : q = 0 := h0
  subst h0q
  cases s
  · have hfe : b.sell_orders.filter (fun x => decide (0 < x.quantity))
        = b.sell_orders :=
      List.filter_eq_self.mpr (fun a ha => decide_eq_true (hq.2 a ha))
    simp [place_order, place_order_internal, matchLoop_zero, hfe]
  · have hfe : b.buy_orders.filter (fun x => decide (0 < x.quantity))
        = b.buy_orders :=
      List.filter_eq_self.mpr (fun a ha => decide_eq_true (hq.1 a ha))
    simp [place_order, place_order_internal, matchLoop_zero, hfe]

/-- C8 witness: on the reachable book holding one resting sell, placing a
zero-quantity buy returns no trades and leaves the book unchanged. -/
theorem C8_zero_quantity_noop_witness :
    place_order (placeMany LimitOrderBook.newBook
        [(⟨1, OrderSide.Sell, 100, 5, 0⟩, 1)])
      ⟨2, OrderSide.Buy, 50, 0, 7⟩ 9
      = ([], placeMany LimitOrderBook.newBook
          [(⟨1, OrderSide.Sell, 100, 5, 0⟩, 1)]) :=
  C8_zero_quantity_noop _ ⟨2, OrderSide.Buy, 50, 0, 7⟩ 9
    ⟨[(⟨1, OrderSide.Sell, 100, 5, 0⟩, 1)], rfl⟩ rfl

/-- C9: the submitted order's timestamp is discarded — `place_order` is
invariant under changing it — and any order the call rests on the book
carries the clock value of the call as its timestamp. -/
theorem C9_rested_timestamp_from_clock (b : LimitOrderBook) (o : Order)
    (now : Nat) (t : Nat) :
    place_order b { o with timestamp := t } now = place_order b o now
      ∧ ∀ r : Order, restedRemainder b o now = some r → r.timestamp = now := by
  obtain ⟨i, s, p, q, t0⟩ := o
  exact ⟨rfl, fun r hr => restedRemainder_timestamp _ _ _ r hr⟩

/-- C9 witness: a Sell submission carrying timestamp 99 or 55 produces
the same call result, and the order rested by the call carries the clock
value 7. -/
theorem C9_rested_timestamp_from_clock_witness :
    place_order LimitOrderBook.newBook
        { (⟨1, OrderSide.Sell, 100, 5, 55⟩ : Order) with timestamp := 99 } 7
      = place_order LimitOrderBook.newBook ⟨1, OrderSide.Sell, 100, 5, 55⟩ 7
    ∧ (Order.mk 1 OrderSide.Buy 100 5 7).timestamp = 7 :=
  ⟨(C9_rested_timestamp_from_clock LimitOrderBook.newBook
      ⟨1, OrderSide.Sell, 100, 5, 55⟩ 7 99).1,
   (C9_rested_timestamp_from_clock LimitOrderBook.newBook
      ⟨1, OrderSide.Sell, 100, 5, 55⟩ 7 99).2
     (Order.mk 1 OrderSide.Buy 100 5 7) rfl⟩

/-- C10: frame property of `place_order`.  The opposite side is obtained
by shrinking quantities pointwise (never touching id, side, price or
timestamp, and keeping positions) and then dropping exhausted orders; the
own side is, as a multiset, the old own side plus at most the one rested
remainder. -/
theorem C10_frame (b : LimitOrderBook) (o : Order) (now : Nat) :
    ∃ mid : List Order,
      List.Forall₂ shrinkOf (oppositeOrders b o.side) mid
      ∧ oppositeOrders (place_order b o now).2 o.side
          = mid.filter (fun x => decide (0 < x.quantity))
      ∧ (ownOrders (place_order b o now).2 o.side).Perm
          (ownOrders b o.side ++ (restedRemainder b o now).toList) :=
  ⟨(matchLoop o.side o.id o.price o.quantity (oppositeOrders b o.side)).2.2,
   matchLoop_shrink o.side o.id o.price o.quantity (oppositeOrders b o.side),
   place_order_opposite b o now,
   place_order_own_perm b o now⟩
